import Mathlib

/-!
Verification development for the scheduling optimizer of the repository
(src/optimizer.py).  The Python module is shallowly embedded below.

Modelling conventions:
* ISO date strings (produced by date.isoformat in the source) are modelled
  injectively as natural numbers; only equality and set membership of dates
  matter to the optimizer, so this is faithful.
* Python dicts are modelled as association lists; a dict built by repeated
  assignment in a loop is read back with a last-assignment-wins lookup, and
  a dict passed in from the caller (date_overrides, previous_earnings) has
  unique keys and is read with a first-match lookup.
* Float weights and fees are modelled as rationals; the module only ever
  compares the canonical weight values 2.0 / 1.0 / 0.0 and adds or
  multiplies small decimal constants, all of which are exact in floats,
  so rationals are faithful here.
* The PuLP linear-programming layer is a third-party library.  The binary
  decision variables x[(doctor, clinic, date)] of solve_schedule are
  modelled as a finite set of triples (the variables set to 1); the LP
  constraints become decidable propositions over such a set, and the CBC
  solver becomes an explicit parameter producing an outcome, constrained
  only by soundness (any produced incumbent satisfies the constraints).
-/

/-- Worker record; the optimizer reads only the identity field
(src/optimizer.py line 64). -/
structure Doctor where
  id : Nat
deriving DecidableEq

/-- Location record as consumed by the optimizer: identity, recurrence
pattern (clinic.get "frequency", default "weekly", line 31), per-diem fee
(c.get "fee", default 0, line 120) and the nominated-worker set
(preferred_doctors, JSON-decoded at lines 100-103; modelled as the decoded
list). -/
structure Clinic where
  id : Nat
  frequency : Option String
  fee : Int
  preferred_doctors : List Nat
deriving DecidableEq

/-- Per-worker availability record (lines 92-95): hard-unavailable dates
(ng_dates), soft-avoid dates (avoid_dates) and preferred locations. -/
structure Preference where
  doctor_id : Nat
  ng_dates : List Nat
  avoid_dates : List Nat
  preferred_clinics : List Nat
deriving DecidableEq

/-- Weighted worker-location relation (lines 106-108). -/
structure Affinity where
  doctor_id : Nat
  clinic_id : Nat
  weight : Rat
deriving DecidableEq

/-- PRIORITY_MUST constant (line 13). -/
def PRIORITY_MUST : Rat := 2

/-- PRIORITY_POSSIBLE constant (line 14). -/
def PRIORITY_POSSIBLE : Rat := 1

/-- PRIORITY_NEVER constant (line 15). -/
def PRIORITY_NEVER : Rat := 0

/-- Per-location recurrence filter (src/optimizer.py lines 29-43).
The biweekly branches are the Python comprehensions
[s for i, s in enumerate(saturdays) if i % 2 == 0] (resp. == 1);
first_only is saturdays[:1], last_only is saturdays[-1:] (the
lastSlice helper below), and every unrecognized pattern falls back to
the full input sequence. -/
def lastSlice : List Nat → List Nat
  | [] => []
  | [a] => [a]
  | _ :: b :: rest => lastSlice (b :: rest)

def get_clinic_dates (clinic : Clinic) (saturdays : List Nat) : List Nat :=
  let freq := clinic.frequency.getD "weekly"
  if freq = "weekly" then saturdays
  else if freq = "biweekly_odd" then
    ((saturdays.enum.filter fun p => p.1 % 2 == 0).map Prod.snd)
  else if freq = "biweekly_even" then
    ((saturdays.enum.filter fun p => p.1 % 2 == 1).map Prod.snd)
  else if freq = "first_only" then saturdays.take 1
  else if freq = "last_only" then lastSlice saturdays
  else saturdays

/-- Full input snapshot of solve_schedule (lines 46-55). -/
structure SchedInput where
  doctors : List Doctor
  clinics : List Clinic
  saturdays : List Nat
  preferences : List Preference
  affinities : List Affinity
  mode : String
  previous_earnings : List (Nat × Int)
  date_overrides : List ((Nat × Nat) × Nat)
deriving DecidableEq

/-- A slot is a (clinic id, date) key paired with its required head count
(the slot_required entry, lines 71-81). -/
abbrev Slot := (Nat × Nat) × Nat

/-- A solution assigns 0/1 to each decision variable; it is modelled as
the set of triples (doctor id, clinic id, date) whose variable is 1. -/
abbrev Sol := List (Nat × Nat × Nat)

/-- doc_ids (line 64). -/
def docIds (inp : SchedInput) : List Nat := inp.doctors.map Doctor.id

/-- overrides.get ((clinic, date), 1) (line 77); date_overrides is a
caller-supplied dict with unique keys, read with a first-match lookup. -/
def lookupOverride (overrides : List ((Nat × Nat) × Nat)) (key : Nat × Nat) : Nat :=
  ((overrides.find? fun p => p.1 = key).map Prod.snd).getD 1

/-- ng_map.get (did, set()) (lines 89-93): the loop assigns
ng_map[p.doctor_id] for each record, so the last record for a worker
wins. -/
def ngDates (prefs : List Preference) (did : Nat) : List Nat :=
  ((prefs.reverse.find? fun p => p.doctor_id = did).map Preference.ng_dates).getD []

/-- avoid_map.get (did, set()) (line 94), last record wins. -/
def avoidDates (prefs : List Preference) (did : Nat) : List Nat :=
  ((prefs.reverse.find? fun p => p.doctor_id = did).map Preference.avoid_dates).getD []

/-- pref_clinics_map.get (did, set()) (line 95), last record wins. -/
def prefClinics (prefs : List Preference) (did : Nat) : List Nat :=
  ((prefs.reverse.find? fun p => p.doctor_id = did).map Preference.preferred_clinics).getD []

/-- clinic_preferred.get (cid, set()) (lines 98-103), keyed by clinic id,
last record wins. -/
def clinicPreferred (clinics : List Clinic) (cid : Nat) : List Nat :=
  ((clinics.reverse.find? fun c => c.id = cid).map Clinic.preferred_doctors).getD []

/-- priority_map.get ((did, cid)) (lines 106-108): dict keyed by the
(doctor, clinic) pair, last affinity record wins; none when the pair is
absent. -/
def priorityW (affs : List Affinity) (did cid : Nat) : Option Rat :=
  (affs.reverse.find? fun a => a.doctor_id = did ∧ a.clinic_id = cid).map Affinity.weight

/-- fee_map.get (cid, 0) (line 120), keyed by clinic id, last record
wins. -/
def feeOf (clinics : List Clinic) (cid : Nat) : Int :=
  ((clinics.reverse.find? fun c => c.id = cid).map Clinic.fee).getD 0

/-- prev.get (did, 0) (lines 189-192); previous_earnings is a
caller-supplied dict with unique keys. -/
def prevEarning (prev : List (Nat × Int)) (did : Nat) : Int :=
  ((prev.find? fun p => p.1 = did).map Prod.snd).getD 0

/-- Inner loop of the slot builder (lines 73-81) for one clinic: walk the
dates of the clinic, skip a date when its override is 0 (closed), skip a
(clinic, date) key already recorded (dict assignment keeps the first
position; the recomputed required count is identical), otherwise record
the slot with its required count. -/
def addClinicSlots (cid : Nat) (overrides : List ((Nat × Nat) × Nat)) :
    List Nat → List Slot → List Slot
  | [], acc => acc
  | d :: rest, acc =>
    if lookupOverride overrides (cid, d) = 0 then
      addClinicSlots cid overrides rest acc
    else if (cid, d) ∈ acc.map Prod.fst then
      addClinicSlots cid overrides rest acc
    else
      addClinicSlots cid overrides rest
        (acc ++ [((cid, d), lookupOverride overrides (cid, d))])

/-- Outer loop of the slot builder over the clinics (lines 71-84). -/
def buildSlotsAux (overrides : List ((Nat × Nat) × Nat)) (saturdays : List Nat) :
    List Clinic → List Slot → List Slot
  | [], acc => acc
  | c :: rest, acc =>
      buildSlotsAux overrides saturdays rest
        (addClinicSlots c.id overrides (get_clinic_dates c saturdays) acc)

/-- slots plus slot_required (lines 71-84): the list of generated
(clinic, date) keys in insertion order, each with its required count. -/
def buildSlots (clinics : List Clinic) (saturdays : List Nat)
    (overrides : List ((Nat × Nat) × Nat)) : List Slot :=
  buildSlotsAux overrides saturdays clinics []

example : buildSlots [⟨1, none, 0, []⟩] [0, 7] [((1, 7), 2)]
    = [((1, 0), 1), ((1, 7), 2)] := by decide

example : get_clinic_dates ⟨1, some "biweekly_odd", 0, []⟩ [0, 1, 2] = [0, 2] := by decide

example : get_clinic_dates ⟨1, some "last_only", 0, []⟩ [0, 1, 2] = [2] := by decide

/-- Value of the binary decision variable x[(did, cid, d)] under a
solution (line 126 builds the variables; a solution sets a variable to 1
exactly when its triple is in the set). -/
def xval (σ : Sol) (did cid d : Nat) : Nat :=
  if (did, cid, d) ∈ σ then 1 else 0

/-- Constraint 1, coverage (lines 135-141): each slot receives exactly its
required count, summed over doc_ids. -/
def coverageOK (inp : SchedInput) (slots : List Slot) (σ : Sol) : Prop :=
  ∀ s ∈ slots, ((docIds inp).map fun did => xval σ did s.1.1 s.1.2).sum = s.2

/-- Constraint 2, at most one duty per worker per day (lines 143-152):
for each worker and each date occurring in a slot, the sum of the
variables of the slots on that date is at most 1. -/
def onePerDayOK (inp : SchedInput) (slots : List Slot) (σ : Sol) : Prop :=
  ∀ did ∈ docIds inp, ∀ d ∈ slots.map fun s => s.1.2,
    (((slots.filter fun s => decide (s.1.2 = d)).map
        fun s => xval σ did s.1.1 s.1.2).sum) ≤ 1

/-- Constraint 3, hard-unavailable dates (lines 154-159): a variable is 0
whenever the date of its slot is in the NG set of the worker. -/
def ngOK (inp : SchedInput) (slots : List Slot) (σ : Sol) : Prop :=
  ∀ did ∈ docIds inp, ∀ s ∈ slots,
    s.1.2 ∈ ngDates inp.preferences did → xval σ did s.1.1 s.1.2 = 0

/-- Constraint 4, hard exclusion (lines 161-166): for each (worker,
clinic) pair recorded in the affinity list whose final weight is
PRIORITY_NEVER, every variable of that worker at that clinic is 0. -/
def neverOK (inp : SchedInput) (slots : List Slot) (σ : Sol) : Prop :=
  ∀ did ∈ docIds inp, ∀ a ∈ inp.affinities, a.doctor_id = did →
    priorityW inp.affinities did a.clinic_id = some PRIORITY_NEVER →
    ∀ s ∈ slots, s.1.1 = a.clinic_id → xval σ did a.clinic_id s.1.2 = 0

/-- Constraint 5, hard inclusion (lines 168-176): for each (worker,
clinic) pair recorded in the affinity list whose final weight is
PRIORITY_MUST, if at least one slot exists at that clinic then the sum of
the variables of that worker over those slots is at least 1.  Note the
guard (line 172): when the clinic has no slot, no constraint is added. -/
def mustOK (inp : SchedInput) (slots : List Slot) (σ : Sol) : Prop :=
  ∀ did ∈ docIds inp, ∀ a ∈ inp.affinities, a.doctor_id = did →
    priorityW inp.affinities did a.clinic_id = some PRIORITY_MUST →
    (slots.filter fun s => decide (s.1.1 = a.clinic_id)) ≠ [] →
    1 ≤ ((slots.filter fun s => decide (s.1.1 = a.clinic_id)).map
          fun s => xval σ did a.clinic_id s.1.2).sum

/-- Conjunction of the five hard constraints of the model (lines
133-176).  The auxiliary slack variables of the two L1-deviation terms
(lines 199-252) are omitted here: for every 0/1 assignment of the x
variables the slack equalities are satisfiable (take the positive and
negative parts of each deviation), so they never affect feasibility of
the x variables; they only shape the objective, which is embedded exactly
below as composedObjective. -/
def modelOK (inp : SchedInput) (slots : List Slot) (σ : Sol) : Prop :=
  coverageOK inp slots σ ∧ onePerDayOK inp slots σ ∧ ngOK inp slots σ ∧
    neverOK inp slots σ ∧ mustOK inp slots σ

instance (inp : SchedInput) (slots : List Slot) (σ : Sol) :
    Decidable (modelOK inp slots σ) := by
  unfold modelOK coverageOK onePerDayOK ngOK neverOK mustOK
  infer_instance

example : modelOK
    ⟨[⟨1⟩], [⟨1, none, 0, []⟩], [0], [], [], "balanced", [], []⟩
    [((1, 0), 1)] [(1, 1, 0)] := by decide

/-- The six objective coefficients w_var, w_pref, w_nom, w_pri, w_avoid,
w_cnt (lines 254-268). -/
structure ObjWeights where
  w_var : Rat
  w_pref : Rat
  w_nom : Rat
  w_pri : Rat
  w_avoid : Rat
  w_cnt : Rat
deriving DecidableEq

/-- Coefficient table of the weighting profiles (lines 261-268). -/
def modeWeights (mode : String) : ObjWeights :=
  if mode = "balanced" then ⟨10, -1, -2, -1, 3, 5⟩
  else if mode = "preference" then ⟨2, -5, -3, -2, 3, 3⟩
  else if mode = "affinity" then ⟨2, -2, -2, -5, 3, 3⟩
  else ⟨5, -2, -2, -2, 3, 5⟩

/-- Condition of line 271: every value of fee_map is 0.  The Python
generator ranges over the keys of fee_map (the clinic ids); ranging over
the clinics checks each id at least once and each check reads the
last-wins fee_map value, so the two formulations agree. -/
def allFeesZero (clinics : List Clinic) : Prop :=
  ∀ c ∈ clinics, feeOf clinics c.id = 0

instance (clinics : List Clinic) : Decidable (allFeesZero clinics) := by
  unfold allFeesZero
  infer_instance

/-- Effective coefficients used by the composed objective: the profile
table, with w_var forced to 0 when every fee is 0 (lines 270-272). -/
def objWeights (mode : String) (clinics : List Clinic) : ObjWeights :=
  let w := modeWeights mode
  if allFeesZero clinics then { w with w_var := 0 } else w

/-- Period earnings of one worker (lines 181-186): the sum of the fees of
the slots assigned to the worker. -/
def docEarnings (inp : SchedInput) (slots : List Slot) (σ : Sol) (did : Nat) : Int :=
  ((slots.filter fun s => decide ((did, s.1.1, s.1.2) ∈ σ)).map
    fun s => feeOf inp.clinics s.1.1).sum

/-- total_earnings (lines 189-192): period earnings plus carried-over
earnings. -/
def totalEarnings (inp : SchedInput) (slots : List Slot) (σ : Sol) (did : Nat) : Int :=
  docEarnings inp slots σ did + prevEarning inp.previous_earnings did

/-- avg_earning (lines 195-196).  In Python this expression raises
ZeroDivisionError when the worker list is empty; solve_schedule below
reproduces that as an error outcome before this value is ever used, so
the total-function rational division here is only read with a non-empty
worker list. -/
def avgEarning (inp : SchedInput) (slots : List Slot) (σ : Sol) : Rat :=
  ((docIds inp).map fun did => (totalEarnings inp slots σ did : Rat)).sum
    / (docIds inp).length

/-- variance_term (lines 199-206): the linearized L1 deviation of each
worker from the mean.  With the slack equalities of lines 202-205 and
nonnegative slacks, the minimal value of dev_plus + dev_minus for a fixed
x assignment is the absolute deviation, which is the value the
minimizing solver realizes; the term is embedded as that value. -/
def varianceTerm (inp : SchedInput) (slots : List Slot) (σ : Sol) : Rat :=
  ((docIds inp).map fun did =>
    |(totalEarnings inp slots σ did : Rat) - avgEarning inp slots σ|).sum

/-- preference_term (lines 209-214). -/
def preferenceTerm (inp : SchedInput) (slots : List Slot) (σ : Sol) : Rat :=
  ((docIds inp).map fun did =>
    (((slots.filter fun s => decide (s.1.1 ∈ prefClinics inp.preferences did)).map
      fun s => (xval σ did s.1.1 s.1.2 : Rat)).sum)).sum

/-- nomination_term (lines 217-222). -/
def nominationTerm (inp : SchedInput) (slots : List Slot) (σ : Sol) : Rat :=
  ((docIds inp).map fun did =>
    (((slots.filter fun s => decide (did ∈ clinicPreferred inp.clinics s.1.1)).map
      fun s => (xval σ did s.1.1 s.1.2 : Rat)).sum)).sum

/-- priority_term (lines 225-229). -/
def priorityTerm (inp : SchedInput) (slots : List Slot) (σ : Sol) : Rat :=
  ((docIds inp).map fun did =>
    ((slots.map fun s =>
      (xval σ did s.1.1 s.1.2 : Rat) *
        ((priorityW inp.affinities did s.1.1).getD 0)).sum)).sum

/-- avoid_penalty (lines 232-237). -/
def avoidPenalty (inp : SchedInput) (slots : List Slot) (σ : Sol) : Rat :=
  ((docIds inp).map fun did =>
    (((slots.filter fun s => decide (s.1.2 ∈ avoidDates inp.preferences did)).map
      fun s => (xval σ did s.1.1 s.1.2 : Rat)).sum)).sum

/-- count_per_doc (lines 240-244). -/
def countPerDoc (slots : List Slot) (σ : Sol) (did : Nat) : Nat :=
  (slots.filter fun s => decide ((did, s.1.1, s.1.2) ∈ σ)).length

/-- avg_count (line 245); like avgEarning this is only read with a
non-empty worker list. -/
def avgCount (inp : SchedInput) (slots : List Slot) (σ : Sol) : Rat :=
  ((docIds inp).map fun did => (countPerDoc slots σ did : Rat)).sum
    / (docIds inp).length

/-- count_variance (lines 246-252), embedded like varianceTerm. -/
def countVariance (inp : SchedInput) (slots : List Slot) (σ : Sol) : Rat :=
  ((docIds inp).map fun did =>
    |(countPerDoc slots σ did : Rat) - avgCount inp slots σ|).sum

/-- The five weighted objective terms other than the pay-variance term
(lines 274-281 minus the w_var summand). -/
def objRest (inp : SchedInput) (slots : List Slot) (σ : Sol) : Rat :=
  let w := objWeights inp.mode inp.clinics
  w.w_pref * preferenceTerm inp slots σ
    + w.w_nom * nominationTerm inp slots σ
    + w.w_pri * priorityTerm inp slots σ
    + w.w_avoid * avoidPenalty inp slots σ
    + w.w_cnt * countVariance inp slots σ

/-- The composed objective handed to the solver (lines 274-281). -/
def composedObjective (inp : SchedInput) (slots : List Slot) (σ : Sol) : Rat :=
  (objWeights inp.mode inp.clinics).w_var * varianceTerm inp slots σ
    + objRest inp slots σ

/-- Outcome of one CBC run (line 284-285).  The solver either proves a
solution optimal within the 30 second limit, stops at the limit holding a
feasible incumbent, proves the model infeasible, or stops with nothing. -/
inductive CbcOutcome where
  | optimal (sol : Sol)
  | timeLimitIncumbent (sol : Sol)
  | infeasible
  | notSolved
deriving DecidableEq

/-- Modelled from the spec: the status label pulp.LpStatus[status] read at
line 287 is produced by the PuLP CBC driver (pulp.PULP_CBC_CMD, library
code outside this repository).  Per the spec (sections 4.5(c) and 7(3)) a
run stopped at the time limit that holds a feasible incumbent surfaces
with the same accepted "Optimal" label as a proved optimum, an infeasible
model surfaces as "Infeasible", and a run stopped empty-handed is not
labelled "Optimal". -/
def lpStatusName : CbcOutcome → String
  | .optimal _ => "Optimal"
  | .timeLimitIncumbent _ => "Optimal"
  | .infeasible => "Infeasible"
  | .notSolved => "Not Solved"

/-- Variable values carried by an outcome (read via pulp.value at line
294). -/
def outcomeSol : CbcOutcome → Option Sol
  | .optimal σ => some σ
  | .timeLimitIncumbent σ => some σ
  | .infeasible => none
  | .notSolved => none

/-- Type of the solver parameter: the built model (input snapshot, slot
list and composed objective) is handed to an external solver process. -/
abbrev Solver := SchedInput → List Slot → (Sol → Rat) → CbcOutcome

/-- Soundness of a solver: any incumbent it hands back satisfies the hard
constraints of the model.  This is the defining contract of an LP/MIP
solver returning a feasible point and is the only property of CBC the
theorems below rely on. -/
def SolverSound (f : Solver) : Prop :=
  ∀ inp slots obj σ, outcomeSol (f inp slots obj) = some σ → modelOK inp slots σ

/-- All decision-variable triples of the model (lines 126-131). -/
def allVars (inp : SchedInput) (slots : List Slot) : List (Nat × Nat × Nat) :=
  (docIds inp).flatMap fun did => slots.map fun s => (did, s.1.1, s.1.2)

/-- A reference solver used to instantiate the theorems on concrete
inputs: exhaustive search over the subsets of the variable set for a
solution of the hard constraints, ignoring the objective. -/
def naiveSolver : Solver := fun inp slots _ =>
  match (allVars inp slots).sublists.find? fun σ => decide (modelOK inp slots σ) with
  | some σ => .optimal σ
  | none => .infeasible

theorem naiveSolver_sound : SolverSound naiveSolver := by
  intro inp slots obj σ h
  unfold naiveSolver at h
  cases hf : (allVars inp slots).sublists.find? fun σ => decide (modelOK inp slots σ) with
  | none => rw [hf] at h; simp [outcomeSol] at h
  | some τ =>
    rw [hf] at h
    simp [outcomeSol] at h
    subst h
    have := List.find?_some hf
    simpa using this

/-- One extracted assignment record (lines 295-299). -/
structure Assignment where
  date : Nat
  clinic_id : Nat
  doctor_id : Nat
deriving DecidableEq

/-- Result extraction loop (lines 291-299): for each slot in order, for
each worker in doc_ids order, emit a record when the variable is 1. -/
def extractAssignments (ds : List Nat) (slots : List Slot) (σ : Sol) :
    List Assignment :=
  (slots.map fun s =>
    (ds.filter fun did => decide ((did, s.1.1, s.1.2) ∈ σ)).map
      fun did => Assignment.mk s.1.2 s.1.1 did).flatten

/-- Keep-first deduplication, the key order of a Python dict
comprehension over doc_ids (lines 302-303). -/
def pyDedup (l : List Nat) : List Nat :=
  l.foldl (fun acc x => if x ∈ acc then acc else acc ++ [x]) []

/-- satisfaction score (lines 311-319). -/
def satisfactionScore (inp : SchedInput) (asgn : List Assignment) : Rat :=
  (asgn.map fun a =>
    (if a.clinic_id ∈ prefClinics inp.preferences a.doctor_id then (1 : Rat) else 0)
      + (if a.doctor_id ∈ clinicPreferred inp.clinics a.clinic_id then (1 : Rat) else 0)
      + ((priorityW inp.affinities a.doctor_id a.clinic_id).getD 0)).sum

/-- Returned record (lines 321-328).  The total_variance field (line 309,
a numpy floating-point standard deviation, an irrational square root) is
the only field not carried over; no claim concerns it. -/
structure SchedResult where
  assignments : List Assignment
  doctor_earnings : List (Nat × Int)
  doctor_counts : List (Nat × Nat)
  satisfaction_score : Rat
  status : String
deriving DecidableEq

/-- Statistics and packaging of a satisfied model (lines 301-328). -/
def extractResult (inp : SchedInput) (slots : List Slot) (σ : Sol) : SchedResult :=
  let asgn := extractAssignments (docIds inp) slots σ
  { assignments := asgn
  , doctor_earnings := (pyDedup (docIds inp)).map fun did =>
      (did, ((asgn.filter fun a => decide (a.doctor_id = did)).map
        fun a => feeOf inp.clinics a.clinic_id).sum)
  , doctor_counts := (pyDedup (docIds inp)).map fun did =>
      (did, (asgn.filter fun a => decide (a.doctor_id = did)).length)
  , satisfaction_score := satisfactionScore inp asgn
  , status := "Optimal" }

/-- solve_schedule (lines 46-328), parameterized by the external solver
process.  Control flow of the source: build the slot set (lines 71-84);
return None when it is empty (lines 85-86); with a non-empty slot set and
an empty worker list, line 196 divides by n_docs = 0 and the call raises
ZeroDivisionError, modelled as an error value; otherwise the model and
objective are handed to CBC (lines 284-285), any status other than
"Optimal" yields None (lines 287-288), and an accepted outcome is
extracted (lines 290-328). -/
def solve_schedule (inp : SchedInput) (pulpSolve : Solver) :
    Except String (Option SchedResult) :=
  let slots := buildSlots inp.clinics inp.saturdays inp.date_overrides
  if slots = [] then Except.ok none
  else if inp.doctors = [] then Except.error "ZeroDivisionError"
  else
    let outcome := pulpSolve inp slots (composedObjective inp slots)
    if lpStatusName outcome ≠ "Optimal" then Except.ok none
    else
      match outcomeSol outcome with
      | some σ => Except.ok (some (extractResult inp slots σ))
      | none => Except.ok none

/-- Plan: a labeled result (lines 348-350). -/
structure Plan where
  result : SchedResult
  plan_name : String
  mode : String
deriving DecidableEq

/-- generate_multiple_plans (lines 331-352): run the pipeline once per
profile in the fixed order and keep the successful runs.  A run that
raises propagates the error, as in Python. -/
def generate_multiple_plans (inp : SchedInput) (pulpSolve : Solver) :
    Except String (List Plan) := do
  let modes := [("balanced", "案A: 給与均等重視"), ("preference", "案B: 希望重視"),
    ("affinity", "案C: 優先度重視")]
  let mut plans : List Plan := []
  for m in modes do
    let r ← solve_schedule { inp with mode := m.1 } pulpSolve
    match r with
    | some res => plans := plans ++ [⟨res, m.2, m.1⟩]
    | none => pure ()
  return plans

/-!
Auxiliary lemmas.
-/

/-- Summing the indicator of a decidable property over a list counts the
members satisfying it. -/
theorem sum_map_ite {α : Type} (l : List α) (p : α → Prop) [DecidablePred p] :
    (l.map fun x => if p x then (1 : Nat) else 0).sum
      = (l.filter fun x => decide (p x)).length := by
  induction l with
  | nil => rfl
  | cons a t ih =>
    by_cases h : p a <;> simp [List.filter_cons, h, ih]
    omega

/-- Length of a filtered flattened map, slot block by slot block. -/
theorem length_filter_flatten {α β : Type} (L : List α) (f : α → List β) (p : β → Bool) :
    (((L.map f).flatten).filter p).length
      = (L.map fun x => ((f x).filter p).length).sum := by
  induction L with
  | nil => rfl
  | cons a t ih => simp [List.filter_append, ih, Function.comp_def]

/-- Moving an indicator factor of the summand into a filter of the index
list. -/
theorem sum_ite_filter {α : Type} (l : List α) (p : α → Prop) [DecidablePred p]
    (f : α → Nat) :
    (l.map fun x => if p x then f x else 0).sum
      = ((l.filter fun x => decide (p x)).map f).sum := by
  induction l with
  | nil => rfl
  | cons a t ih =>
    by_cases h : p a <;> simp [List.filter_cons, h, ih]

/-- Counting the occurrences of a fixed element among the members of a
duplicate-free list that satisfy a further test. -/
theorem count_filter_single (D : List Nat) (hN : D.Nodup) (did : Nat) (q : Nat → Bool) :
    (D.filter fun x => decide (x = did) && q x).length
      = if did ∈ D ∧ q did = true then 1 else 0 := by
  induction D with
  | nil => simp
  | cons a t ih =>
    rw [List.nodup_cons] at hN
    by_cases ha : a = did
    · subst ha
      have htail : (t.filter fun x => decide (x = a) && q x) = [] := by
        rw [List.filter_eq_nil_iff]
        intro x hx
        simp only [Bool.and_eq_true, decide_eq_true_eq, not_and]
        intro hxa
        exact absurd (hxa ▸ hx) hN.1
      by_cases hq : q a = true <;>
        simp [List.filter_cons, hq, htail]
    · have := ih hN.2
      simp only [List.filter_cons, decide_eq_true_eq]
      rw [if_neg (by simp [ha])]
      rw [this]
      by_cases hmem : did ∈ t ∧ q did = true
      · rw [if_pos hmem, if_pos ⟨List.mem_cons_of_mem a hmem.1, hmem.2⟩]
      · rw [if_neg hmem, if_neg (by
          rintro ⟨hm, hq⟩
          rcases List.mem_cons.1 hm with h | h
          · exact ha h.symm
          · exact hmem ⟨h, hq⟩)]

/-- Membership characterization of the extracted assignment list. -/
theorem mem_extractAssignments {D : List Nat} {slots : List Slot} {σ : Sol}
    {a : Assignment} :
    a ∈ extractAssignments D slots σ ↔
      ∃ s ∈ slots, a.clinic_id = s.1.1 ∧ a.date = s.1.2 ∧ a.doctor_id ∈ D ∧
        (a.doctor_id, s.1.1, s.1.2) ∈ σ := by
  unfold extractAssignments
  rw [List.mem_flatten]
  constructor
  · rintro ⟨l, hl, hal⟩
    rw [List.mem_map] at hl
    obtain ⟨s, hs, rfl⟩ := hl
    rw [List.mem_map] at hal
    obtain ⟨did, hdid, rfl⟩ := hal
    rw [List.mem_filter] at hdid
    exact ⟨s, hs, rfl, rfl, hdid.1, by simpa using hdid.2⟩
  · rintro ⟨s, hs, hc, hd, hD, hσ⟩
    refine ⟨(D.filter fun did => decide ((did, s.1.1, s.1.2) ∈ σ)).map
      fun did => Assignment.mk s.1.2 s.1.1 did, List.mem_map_of_mem _ hs, ?_⟩
    rw [List.mem_map]
    refine ⟨a.doctor_id, List.mem_filter.2 ⟨hD, by simpa using hσ⟩, ?_⟩
    cases a
    simp_all

/-- Every key added by the inner slot loop carries its override count,
which is nonzero. -/
theorem mem_addClinicSlots {cid : Nat} {o : List ((Nat × Nat) × Nat)}
    {dates : List Nat} {acc : List Slot} {x : Slot}
    (h : x ∈ addClinicSlots cid o dates acc) :
    x ∈ acc ∨ (x.2 = lookupOverride o x.1 ∧ x.2 ≠ 0) := by
  induction dates generalizing acc with
  | nil => exact Or.inl h
  | cons d rest ih =>
    unfold addClinicSlots at h
    split_ifs at h with h1 h2
    · exact ih h
    · exact ih h
    · rcases ih h with hin | hprop
      · rcases List.mem_append.1 hin with h3 | h3
        · exact Or.inl h3
        · simp only [List.mem_singleton] at h3
          subst h3
          exact Or.inr ⟨rfl, h1⟩
      · exact Or.inr hprop

theorem mem_buildSlotsAux {o : List ((Nat × Nat) × Nat)} {sats : List Nat}
    {cs : List Clinic} {acc : List Slot} {x : Slot}
    (h : x ∈ buildSlotsAux o sats cs acc) :
    x ∈ acc ∨ (x.2 = lookupOverride o x.1 ∧ x.2 ≠ 0) := by
  induction cs generalizing acc with
  | nil => exact Or.inl h
  | cons c rest ih =>
    unfold buildSlotsAux at h
    rcases ih h with hin | hprop
    · rcases mem_addClinicSlots hin with h2 | h2
      · exact Or.inl h2
      · exact Or.inr h2
    · exact Or.inr hprop

/-- Every generated slot carries its (nonzero) override count. -/
theorem mem_buildSlots {cs : List Clinic} {sats : List Nat}
    {o : List ((Nat × Nat) × Nat)} {x : Slot}
    (h : x ∈ buildSlots cs sats o) :
    x.2 = lookupOverride o x.1 ∧ x.2 ≠ 0 := by
  rcases mem_buildSlotsAux h with hin | hprop
  · simp at hin
  · exact hprop

/-- The inner slot loop preserves freedom from duplicate keys. -/
theorem addClinicSlots_nodup (cid : Nat) (o : List ((Nat × Nat) × Nat))
    (dates : List Nat) (acc : List Slot)
    (h : (acc.map Prod.fst).Nodup) :
    ((addClinicSlots cid o dates acc).map Prod.fst).Nodup := by
  induction dates generalizing acc with
  | nil => exact h
  | cons d rest ih =>
    unfold addClinicSlots
    split_ifs with h1 h2
    · exact ih acc h
    · exact ih acc h
    · apply ih
      rw [List.map_append, List.nodup_append]
      refine ⟨h, List.nodup_singleton _, ?_⟩
      intro y hy
      simp only [List.map_cons, List.map_nil, List.mem_singleton]
      intro hcontra
      exact h2 (hcontra ▸ hy)

theorem buildSlotsAux_nodup (o : List ((Nat × Nat) × Nat)) (sats : List Nat)
    (cs : List Clinic) (acc : List Slot)
    (h : (acc.map Prod.fst).Nodup) :
    ((buildSlotsAux o sats cs acc).map Prod.fst).Nodup := by
  induction cs generalizing acc with
  | nil => exact h
  | cons c rest ih =>
    exact ih _ (addClinicSlots_nodup c.id o _ acc h)

/-- The generated slot keys are free of duplicates. -/
theorem buildSlots_nodup (cs : List Clinic) (sats : List Nat)
    (o : List ((Nat × Nat) × Nat)) :
    ((buildSlots cs sats o).map Prod.fst).Nodup :=
  buildSlotsAux_nodup o sats cs [] (by simp)

theorem extractResult_assignments (inp : SchedInput) (slots : List Slot) (σ : Sol) :
    (extractResult inp slots σ).assignments = extractAssignments (docIds inp) slots σ := rfl

/-- Characterization of a successful run of solve_schedule: some solution
was handed back by the solver, and the result is its extraction. -/
theorem solve_ok_some {inp : SchedInput} {f : Solver} {r : SchedResult}
    (h : solve_schedule inp f = Except.ok (some r)) :
    ∃ σ, outcomeSol (f inp (buildSlots inp.clinics inp.saturdays inp.date_overrides)
          (composedObjective inp (buildSlots inp.clinics inp.saturdays inp.date_overrides)))
        = some σ
      ∧ r = extractResult inp (buildSlots inp.clinics inp.saturdays inp.date_overrides) σ := by
  simp only [solve_schedule] at h
  split_ifs at h
  · simp at h
  · simp at h
  · revert h
    cases heq : outcomeSol (f inp (buildSlots inp.clinics inp.saturdays inp.date_overrides)
        (composedObjective inp (buildSlots inp.clinics inp.saturdays inp.date_overrides))) with
    | none => intro h; simp at h
    | some σ =>
      intro h
      simp only [Except.ok.injEq, Option.some.injEq] at h
      exact ⟨σ, rfl, h.symm⟩

/-- Observation on a result: the assignment records of one slot. -/
def slotAssignments (asgn : List Assignment) (cid d : Nat) : List Assignment :=
  asgn.filter fun a => decide (a.clinic_id = cid) && decide (a.date = d)

/-- Observation on a result: the assignment records of one worker on one
date. -/
def workerDayAssignments (asgn : List Assignment) (did d : Nat) : List Assignment :=
  asgn.filter fun a => decide (a.doctor_id = did) && decide (a.date = d)

theorem extractAssignments_cons (D : List Nat) (s : Slot) (t : List Slot) (σ : Sol) :
    extractAssignments D (s :: t) σ
      = ((D.filter fun did => decide ((did, s.1.1, s.1.2) ∈ σ)).map
          fun did => Assignment.mk s.1.2 s.1.1 did) ++ extractAssignments D t σ := by
  simp [extractAssignments]

/-- The key of every extracted assignment is a generated slot key. -/
theorem mem_extractAssignments_key {D : List Nat} {slots : List Slot} {σ : Sol}
    {a : Assignment} (h : a ∈ extractAssignments D slots σ) :
    (a.clinic_id, a.date) ∈ slots.map Prod.fst := by
  obtain ⟨s, hs, hc, hd, -, -⟩ := mem_extractAssignments.1 h
  rw [hc, hd]
  exact List.mem_map_of_mem Prod.fst hs

/-- With duplicate-free slot keys, the records of one slot in the
extraction are exactly the block generated for that slot. -/
theorem extract_filter_block (D : List Nat) (σ : Sol) (c d : Nat) :
    ∀ slots : List Slot, (slots.map Prod.fst).Nodup → (c, d) ∈ slots.map Prod.fst →
      slotAssignments (extractAssignments D slots σ) c d
        = (D.filter fun did => decide ((did, c, d) ∈ σ)).map
            fun did => Assignment.mk d c did := by
  intro slots
  induction slots with
  | nil => intro _ h; simp at h
  | cons s t ih =>
    intro hnd hmem
    obtain ⟨⟨c1, d1⟩, req⟩ := s
    rw [List.map_cons, List.nodup_cons] at hnd
    rw [List.map_cons, List.mem_cons] at hmem
    rw [extractAssignments_cons]
    unfold slotAssignments
    rw [List.filter_append]
    rcases hmem with heq | hmem2
    · have hc : c = c1 := congrArg Prod.fst heq
      have hd : d = d1 := congrArg Prod.snd heq
      subst hc
      subst hd
      have htail : (extractAssignments D t σ).filter
          (fun a => decide (a.clinic_id = c) && decide (a.date = d)) = [] := by
        rw [List.filter_eq_nil_iff]
        intro a ha
        simp only [Bool.and_eq_true, decide_eq_true_eq, not_and]
        intro h1 h2
        have := mem_extractAssignments_key ha
        rw [h1, h2] at this
        exact hnd.1 this
      rw [htail, List.append_nil, List.filter_map]
      have : ((fun a => decide (a.clinic_id = c) && decide (a.date = d)) ∘
          fun did => Assignment.mk d c did) = fun _ => true := by
        funext did
        simp
      rw [this, List.filter_true]
    · have hne : ¬((c1, d1) = (c, d)) := fun hcd => hnd.1 (hcd ▸ hmem2)
      have hblock : (((D.filter fun did => decide ((did, c1, d1) ∈ σ)).map
          fun did => Assignment.mk d1 c1 did).filter
            fun a => decide (a.clinic_id = c) && decide (a.date = d)) = [] := by
        rw [List.filter_eq_nil_iff]
        intro a ha
        rw [List.mem_map] at ha
        obtain ⟨did, -, rfl⟩ := ha
        simp only [Bool.and_eq_true, decide_eq_true_eq, not_and]
        intro h1 h2
        exact hne (by rw [h1, h2])
      rw [hblock, List.nil_append]
      exact ih hnd.2 hmem2

/-- A recorded priority weight names an actual affinity record of the
pair. -/
theorem priorityW_mem {affs : List Affinity} {did cid : Nat} {w : Rat}
    (h : priorityW affs did cid = some w) :
    ∃ a ∈ affs, a.doctor_id = did ∧ a.clinic_id = cid ∧ a.weight = w := by
  unfold priorityW at h
  cases hf : affs.reverse.find? fun a => decide (a.doctor_id = did ∧ a.clinic_id = cid) with
  | none => rw [hf] at h; simp at h
  | some a =>
    rw [hf] at h
    simp only [Option.map_some', Option.some.injEq] at h
    have hm := List.mem_of_find?_eq_some hf
    have hp := List.find?_some hf
    simp only [decide_eq_true_eq] at hp
    exact ⟨a, List.mem_reverse.1 hm, hp.1, hp.2, h⟩

/-- When every fee is zero the fee_map condition of line 271 holds. -/
theorem allFeesZero_of {clinics : List Clinic} (h : ∀ c ∈ clinics, c.fee = 0) :
    allFeesZero clinics := by
  intro c hc
  unfold feeOf
  cases hf : clinics.reverse.find? fun x => decide (x.id = c.id) with
  | none =>
    rw [List.find?_eq_none] at hf
    exact absurd (by simp) (hf c (List.mem_reverse.2 hc))
  | some y =>
    have hm := List.mem_reverse.1 (List.mem_of_find?_eq_some hf)
    simp [h y hm]

/-- Branch lemma: weekly pattern returns the input sequence. -/
theorem get_clinic_dates_eq_weekly (c : Clinic) (l : List Nat)
    (h : c.frequency.getD "weekly" = "weekly") : get_clinic_dates c l = l := by
  simp [get_clinic_dates, h]

/-- Branch lemma: biweekly_odd keeps the even positions. -/
theorem get_clinic_dates_eq_odd (c : Clinic) (l : List Nat)
    (h : c.frequency.getD "weekly" = "biweekly_odd") :
    get_clinic_dates c l = (l.enum.filter fun p => p.1 % 2 == 0).map Prod.snd := by
  simp [get_clinic_dates, h]

/-- Branch lemma: biweekly_even keeps the odd positions. -/
theorem get_clinic_dates_eq_even (c : Clinic) (l : List Nat)
    (h : c.frequency.getD "weekly" = "biweekly_even") :
    get_clinic_dates c l = (l.enum.filter fun p => p.1 % 2 == 1).map Prod.snd := by
  simp [get_clinic_dates, h]

/-- Branch lemma: first_only keeps the first date. -/
theorem get_clinic_dates_eq_first (c : Clinic) (l : List Nat)
    (h : c.frequency.getD "weekly" = "first_only") :
    get_clinic_dates c l = l.take 1 := by
  simp [get_clinic_dates, h]

/-- Branch lemma: last_only keeps the last date. -/
theorem get_clinic_dates_eq_last (c : Clinic) (l : List Nat)
    (h : c.frequency.getD "weekly" = "last_only") :
    get_clinic_dates c l = lastSlice l := by
  simp [get_clinic_dates, h]

/-- Branch lemma: any other pattern falls back to the input sequence. -/
theorem get_clinic_dates_eq_fallback (c : Clinic) (l : List Nat)
    (h1 : c.frequency.getD "weekly" ≠ "weekly")
    (h2 : c.frequency.getD "weekly" ≠ "biweekly_odd")
    (h3 : c.frequency.getD "weekly" ≠ "biweekly_even")
    (h4 : c.frequency.getD "weekly" ≠ "first_only")
    (h5 : c.frequency.getD "weekly" ≠ "last_only") :
    get_clinic_dates c l = l := by
  simp [get_clinic_dates, h1, h2, h3, h4, h5]

/-- Filtering positions of an enumeration yields a subsequence. -/
theorem enum_filter_sublist (l : List Nat) (p : Nat × Nat → Bool) :
    List.Sublist ((l.enum.filter p).map Prod.snd) l := by
  have h := List.Sublist.map Prod.snd (List.filter_sublist (p := p) l.enum)
  rwa [List.enum_map_snd] at h

theorem lastSlice_sublist : ∀ l : List Nat, List.Sublist (lastSlice l) l
  | [] => List.Sublist.refl []
  | [a] => List.Sublist.refl [a]
  | a :: b :: rest => List.Sublist.cons a (lastSlice_sublist (b :: rest))

theorem lastSlice_idem : ∀ l : List Nat, lastSlice (lastSlice l) = lastSlice l
  | [] => rfl
  | [_] => rfl
  | a :: b :: rest => by
    rw [show lastSlice (a :: b :: rest) = lastSlice (b :: rest) from rfl,
      lastSlice_idem (b :: rest)]

/-- C6 (amended): the recurrence filter is order-preserving for every
pattern (its output is a subsequence of its input), and re-filtering an
already-filtered sequence reproduces it unchanged for every
non-biweekly pattern (weekly, first_only, last_only, and any
unrecognized pattern); the biweekly patterns are excluded, as the
counterexample shows they are not idempotent. -/
theorem C6_filter_order_preserving_and_idem (c : Clinic) (l : List Nat) :
    List.Sublist (get_clinic_dates c l) l ∧
      (c.frequency.getD "weekly" ≠ "biweekly_odd" →
        c.frequency.getD "weekly" ≠ "biweekly_even" →
        get_clinic_dates c (get_clinic_dates c l) = get_clinic_dates c l) := by
  constructor
  · by_cases h1 : c.frequency.getD "weekly" = "weekly"
    · rw [get_clinic_dates_eq_weekly c l h1]
    · by_cases h2 : c.frequency.getD "weekly" = "biweekly_odd"
      · rw [get_clinic_dates_eq_odd c l h2]
        exact enum_filter_sublist l _
      · by_cases h3 : c.frequency.getD "weekly" = "biweekly_even"
        · rw [get_clinic_dates_eq_even c l h3]
          exact enum_filter_sublist l _
        · by_cases h4 : c.frequency.getD "weekly" = "first_only"
          · rw [get_clinic_dates_eq_first c l h4]
            exact List.take_sublist 1 l
          · by_cases h5 : c.frequency.getD "weekly" = "last_only"
            · rw [get_clinic_dates_eq_last c l h5]
              exact lastSlice_sublist l
            · rw [get_clinic_dates_eq_fallback c l h1 h2 h3 h4 h5]
  · intro hodd heven
    by_cases h1 : c.frequency.getD "weekly" = "weekly"
    · rw [get_clinic_dates_eq_weekly c l h1, get_clinic_dates_eq_weekly c _ h1]
    · by_cases h4 : c.frequency.getD "weekly" = "first_only"
      · rw [get_clinic_dates_eq_first c l h4, get_clinic_dates_eq_first c _ h4,
          List.take_take]
        norm_num
      · by_cases h5 : c.frequency.getD "weekly" = "last_only"
        · rw [get_clinic_dates_eq_last c l h5, get_clinic_dates_eq_last c _ h5,
            lastSlice_idem]
        · rw [get_clinic_dates_eq_fallback c l h1 hodd heven h4 h5,
            get_clinic_dates_eq_fallback c l h1 hodd heven h4 h5]

/-- C6 witness: instance of the amended statement for the first_only
pattern on a concrete two-date month. -/
theorem C6_witness :
    List.Sublist (get_clinic_dates ⟨1, some "first_only", 0, []⟩ [5, 6]) [5, 6] ∧
      get_clinic_dates ⟨1, some "first_only", 0, []⟩
          (get_clinic_dates ⟨1, some "first_only", 0, []⟩ [5, 6])
        = get_clinic_dates ⟨1, some "first_only", 0, []⟩ [5, 6] :=
  ⟨(C6_filter_order_preserving_and_idem ⟨1, some "first_only", 0, []⟩ [5, 6]).1,
    (C6_filter_order_preserving_and_idem ⟨1, some "first_only", 0, []⟩ [5, 6]).2
      (by decide) (by decide)⟩

/-- C6 counterexample: on a three-date month the biweekly_odd filter is
not idempotent — it maps [0, 1, 2] to [0, 2], and [0, 2] further to [0],
so re-filtering an already-filtered sequence does not reproduce it. -/
theorem C6_counterexample :
    get_clinic_dates ⟨1, some "biweekly_odd", 0, []⟩
        (get_clinic_dates ⟨1, some "biweekly_odd", 0, []⟩ [0, 1, 2])
      ≠ get_clinic_dates ⟨1, some "biweekly_odd", 0, []⟩ [0, 1, 2] := by
  decide

/-- C9: a recurrence pattern outside the five recognized values makes
the per-location filter return the full eligible-date sequence. -/
theorem C9_unknown_pattern_fallback (c : Clinic) (l : List Nat)
    (h : c.frequency.getD "weekly" ∉
      (["weekly", "biweekly_odd", "biweekly_even", "first_only", "last_only"] :
        List String)) :
    get_clinic_dates c l = l := by
  simp only [List.mem_cons, List.not_mem_nil, or_false, not_or] at h
  exact get_clinic_dates_eq_fallback c l h.1 h.2.1 h.2.2.1 h.2.2.2.1 h.2.2.2.2

/-- C9 witness: the unrecognized pattern monthly returns the full
sequence. -/
theorem C9_witness :
    get_clinic_dates ⟨1, some "monthly", 0, []⟩ [0, 1, 2] = [0, 1, 2] :=
  C9_unknown_pattern_fallback ⟨1, some "monthly", 0, []⟩ [0, 1, 2] (by decide)

/-- Minimal run: one worker, one weekly clinic, one eligible date. -/
def demoInp : SchedInput :=
  ⟨[⟨1⟩], [⟨1, none, 0, []⟩], [0], [], [], "balanced", [], []⟩

/-- Like demoInp but with a MUST affinity toward clinic 2, for which no
slot is generated (clinic 2 does not exist in the run). -/
def mustNoSlotInp : SchedInput :=
  ⟨[⟨1⟩], [⟨1, none, 0, []⟩], [0], [], [⟨1, 2, 2⟩], "balanced", [], []⟩

/-- Like demoInp but with a MUST affinity toward clinic 1, which has a
slot. -/
def mustSlotInp : SchedInput :=
  ⟨[⟨1⟩], [⟨1, none, 0, []⟩], [0], [], [⟨1, 1, 2⟩], "balanced", [], []⟩

/-- Like demoInp but the single candidate date is closed by an override
of 0, so no slot is generated. -/
def closedInp : SchedInput :=
  ⟨[⟨1⟩], [⟨1, none, 0, []⟩], [0], [], [], "balanced", [], [((1, 0), 0)]⟩

/-- Like demoInp but with an empty worker list. -/
def noDocInp : SchedInput :=
  ⟨[], [⟨1, none, 0, []⟩], [0], [], [], "balanced", [], []⟩

/-- A call result that is a usable schedule (neither None nor an
error). -/
def returnsSome : Except String (Option SchedResult) → Bool
  | .ok (some _) => true
  | _ => false

/-- C7: with an empty generated slot set, solve_schedule returns None
whatever the solver is (the solver is never consulted); and a
(location, date) whose override is exactly 0 never appears as a slot key
nor as the key of any assignment of any returned result. -/
theorem C7_empty_slots_and_closed_dates (inp : SchedInput) (f : Solver) :
    (buildSlots inp.clinics inp.saturdays inp.date_overrides = [] →
      solve_schedule inp f = Except.ok none) ∧
    (∀ cid d, lookupOverride inp.date_overrides (cid, d) = 0 →
      ((cid, d) ∉ (buildSlots inp.clinics inp.saturdays inp.date_overrides).map Prod.fst ∧
        ∀ r, solve_schedule inp f = Except.ok (some r) →
          ∀ a ∈ r.assignments, ¬(a.clinic_id = cid ∧ a.date = d))) := by
  constructor
  · intro hs
    simp [solve_schedule, hs]
  · intro cid d h0
    have hkey : (cid, d) ∉
        (buildSlots inp.clinics inp.saturdays inp.date_overrides).map Prod.fst := by
      intro hmem
      rw [List.mem_map] at hmem
      obtain ⟨s, hs, hfst⟩ := hmem
      have hprop := mem_buildSlots hs
      rw [hfst] at hprop
      exact hprop.2 (hprop.1.trans h0)
    refine ⟨hkey, ?_⟩
    rintro r hr a ha ⟨hac, had⟩
    obtain ⟨σ, -, rfl⟩ := solve_ok_some hr
    rw [extractResult_assignments] at ha
    have hk := mem_extractAssignments_key ha
    rw [hac, had] at hk
    exact hkey hk

/-- C7 witness: on the closed single-date run the slot set is empty,
solve_schedule returns None, and the closed key is not a slot key. -/
theorem C7_witness :
    solve_schedule closedInp naiveSolver = Except.ok none ∧
      (1, 0) ∉ (buildSlots closedInp.clinics closedInp.saturdays
        closedInp.date_overrides).map Prod.fst :=
  ⟨(C7_empty_slots_and_closed_dates closedInp naiveSolver).1 (by decide),
    ((C7_empty_slots_and_closed_dates closedInp naiveSolver).2 1 0 (by decide)).1⟩

/-- C8: when every fee of the location list is zero, the pay-variance
coefficient of the composed objective is forced to 0 whatever the
weighting profile, and the composed objective degenerates to the five
remaining weighted terms. -/
theorem C8_zero_fees_kill_variance_weight (inp : SchedInput)
    (h : ∀ c ∈ inp.clinics, c.fee = 0) :
    (objWeights inp.mode inp.clinics).w_var = 0 ∧
      ∀ slots σ, composedObjective inp slots σ = objRest inp slots σ := by
  have hz : allFeesZero inp.clinics := allFeesZero_of h
  have hw : (objWeights inp.mode inp.clinics).w_var = 0 := by
    simp [objWeights, if_pos hz]
  exact ⟨hw, fun slots σ => by rw [composedObjective, hw, zero_mul, zero_add]⟩

/-- C8 witness: instance on the zero-fee demo run. -/
theorem C8_witness :
    (objWeights demoInp.mode demoInp.clinics).w_var = 0 ∧
      composedObjective demoInp [((1, 0), 1)] [] = objRest demoInp [((1, 0), 1)] [] :=
  ⟨(C8_zero_fees_kill_variance_weight demoInp (by decide)).1,
    (C8_zero_fees_kill_variance_weight demoInp (by decide)).2 [((1, 0), 1)] []⟩

/-- C10: with an empty worker list solve_schedule is not total: when the
generated slot set is non-empty the Python call raises ZeroDivisionError
at the mean-earnings division (line 196), modelled as the error outcome,
whatever the solver; None is returned without error exactly when the
slot set is also empty. -/
theorem C10_empty_worker_division (inp : SchedInput) (f : Solver)
    (h : inp.doctors = []) :
    (buildSlots inp.clinics inp.saturdays inp.date_overrides ≠ [] →
      solve_schedule inp f = Except.error "ZeroDivisionError") ∧
    (buildSlots inp.clinics inp.saturdays inp.date_overrides = [] →
      solve_schedule inp f = Except.ok none) := by
  constructor <;> intro hs <;> simp [solve_schedule, hs, h]

/-- C10 witness: the one-slot no-worker run errors out. -/
theorem C10_witness :
    solve_schedule noDocInp naiveSolver = Except.error "ZeroDivisionError" :=
  (C10_empty_worker_division noDocInp naiveSolver rfl).1 (by decide)

/-- C2: a solver run stopped at the time limit holding a feasible
incumbent carries the accepted status label, so solve_schedule returns
the incumbent extracted as a usable result — the very same value a
solver proving the same solution optimal would produce. -/
theorem C2_time_limit_incumbent_used (inp : SchedInput) (f g : Solver) (σ : Sol)
    (hslots : buildSlots inp.clinics inp.saturdays inp.date_overrides ≠ [])
    (hdocs : inp.doctors ≠ [])
    (hf : f inp (buildSlots inp.clinics inp.saturdays inp.date_overrides)
        (composedObjective inp (buildSlots inp.clinics inp.saturdays inp.date_overrides))
      = CbcOutcome.timeLimitIncumbent σ)
    (hg : g inp (buildSlots inp.clinics inp.saturdays inp.date_overrides)
        (composedObjective inp (buildSlots inp.clinics inp.saturdays inp.date_overrides))
      = CbcOutcome.optimal σ) :
    solve_schedule inp f = Except.ok (some (extractResult inp
        (buildSlots inp.clinics inp.saturdays inp.date_overrides) σ)) ∧
      solve_schedule inp f = solve_schedule inp g := by
  have h1 : solve_schedule inp f = Except.ok (some (extractResult inp
      (buildSlots inp.clinics inp.saturdays inp.date_overrides) σ)) := by
    simp [solve_schedule, hslots, hdocs, hf, lpStatusName, outcomeSol]
  have h2 : solve_schedule inp g = Except.ok (some (extractResult inp
      (buildSlots inp.clinics inp.saturdays inp.date_overrides) σ)) := by
    simp [solve_schedule, hslots, hdocs, hg, lpStatusName, outcomeSol]
  exact ⟨h1, h1.trans h2.symm⟩

/-- C2 witness: instance on the demo run with constant solvers. -/
theorem C2_witness :
    solve_schedule demoInp (fun _ _ _ => CbcOutcome.timeLimitIncumbent [(1, 1, 0)])
        = Except.ok (some (extractResult demoInp
          (buildSlots demoInp.clinics demoInp.saturdays demoInp.date_overrides)
          [(1, 1, 0)])) ∧
      solve_schedule demoInp (fun _ _ _ => CbcOutcome.timeLimitIncumbent [(1, 1, 0)])
        = solve_schedule demoInp (fun _ _ _ => CbcOutcome.optimal [(1, 1, 0)]) :=
  C2_time_limit_incumbent_used demoInp _ _ [(1, 1, 0)] (by decide) (by decide) rfl rfl

/-- C1: every returned schedule staffs each generated slot with exactly
its required count of workers — the count taken from a date override
when present and 1 otherwise — and (with the duplicate-free worker
identities the caller contract guarantees) those workers are pairwise
distinct. -/
theorem C1_exact_slot_coverage (inp : SchedInput) (f : Solver)
    (hf : SolverSound f) (hN : (docIds inp).Nodup) (r : SchedResult)
    (h : solve_schedule inp f = Except.ok (some r)) :
    ∀ s ∈ buildSlots inp.clinics inp.saturdays inp.date_overrides,
      s.2 = lookupOverride inp.date_overrides s.1 ∧
        (slotAssignments r.assignments s.1.1 s.1.2).length = s.2 ∧
        ((slotAssignments r.assignments s.1.1 s.1.2).map Assignment.doctor_id).Nodup := by
  obtain ⟨σ, hσ, rfl⟩ := solve_ok_some h
  have hmodel := hf _ _ _ _ hσ
  intro s hs
  refine ⟨(mem_buildSlots hs).1, ?_⟩
  have hkey : (s.1.1, s.1.2) ∈
      (buildSlots inp.clinics inp.saturdays inp.date_overrides).map Prod.fst :=
    List.mem_map_of_mem Prod.fst hs
  have hblock := extract_filter_block (docIds inp) σ s.1.1 s.1.2 _
    (buildSlots_nodup _ _ _) hkey
  rw [extractResult_assignments, hblock]
  constructor
  · rw [List.length_map]
    have hcov := hmodel.1 s hs
    simp only [xval] at hcov
    rw [sum_map_ite (docIds inp) fun did => (did, s.1.1, s.1.2) ∈ σ] at hcov
    exact hcov
  · rw [List.map_map]
    have hcomp : (Assignment.doctor_id ∘ fun did => Assignment.mk s.1.2 s.1.1 did)
        = id := rfl
    rw [hcomp, List.map_id]
    exact hN.filter _

/-- The extraction of the demo run under the reference solver. -/
def demoResult : SchedResult :=
  extractResult demoInp (buildSlots demoInp.clinics demoInp.saturdays
    demoInp.date_overrides) [(1, 1, 0)]

/-- C1 witness: the single demo slot, which requires one worker, holds
exactly one record with a duplicate-free worker list. -/
theorem C1_witness :
    (1 : Nat) = lookupOverride demoInp.date_overrides (1, 0) ∧
      (slotAssignments demoResult.assignments 1 0).length = 1 ∧
      ((slotAssignments demoResult.assignments 1 0).map Assignment.doctor_id).Nodup :=
  C1_exact_slot_coverage demoInp naiveSolver naiveSolver_sound (by decide)
    demoResult rfl ((1, 0), 1) (by decide)

/-- C4: no returned assignment sits on a hard-unavailable (NG) date of
its worker, and none pairs a worker with a location whose recorded
affinity weight is the NEVER constant. -/
theorem C4_no_ng_no_never (inp : SchedInput) (f : Solver) (hf : SolverSound f)
    (r : SchedResult) (h : solve_schedule inp f = Except.ok (some r)) :
    ∀ a ∈ r.assignments,
      a.date ∉ ngDates inp.preferences a.doctor_id ∧
        priorityW inp.affinities a.doctor_id a.clinic_id ≠ some PRIORITY_NEVER := by
  obtain ⟨σ, hσ, rfl⟩ := solve_ok_some h
  obtain ⟨-, -, hng, hnever, -⟩ := hf _ _ _ _ hσ
  intro a ha
  rw [extractResult_assignments] at ha
  obtain ⟨s, hs, hc, hd, hD, hmem⟩ := mem_extractAssignments.1 ha
  constructor
  · intro hngmem
    have h0 := hng a.doctor_id hD s hs (by rw [← hd]; exact hngmem)
    unfold xval at h0
    rw [if_pos hmem] at h0
    exact one_ne_zero h0
  · intro hpw
    obtain ⟨a', ha', hdid, hcid, -⟩ := priorityW_mem hpw
    have h0 := hnever a.doctor_id hD a' ha' hdid
      (by rw [hcid]; exact hpw) s hs (by rw [hcid, hc])
    unfold xval at h0
    rw [hcid] at h0
    rw [if_pos (show (a.doctor_id, a.clinic_id, s.1.2) ∈ σ by rw [hc]; exact hmem)] at h0
    exact one_ne_zero h0

/-- C4 witness: the demo assignment is on no NG date and carries no
NEVER affinity. -/
theorem C4_witness :
    (0 : Nat) ∉ ngDates demoInp.preferences 1 ∧
      priorityW demoInp.affinities 1 1 ≠ some PRIORITY_NEVER :=
  C4_no_ng_no_never demoInp naiveSolver naiveSolver_sound demoResult rfl
    ⟨0, 1, 1⟩ (by decide)

/-- Exact record count contributed by one slot block to one worker and
one date, over a duplicate-free worker list. -/
theorem block_count (did d c2 d2 : Nat) (σ : Sol) :
    ∀ D : List Nat, D.Nodup →
      (((D.filter fun x => decide ((x, c2, d2) ∈ σ)).map
          fun x => Assignment.mk d2 c2 x).filter
            fun a => decide (a.doctor_id = did) && decide (a.date = d)).length
        = if did ∈ D ∧ (did, c2, d2) ∈ σ ∧ d2 = d then 1 else 0 := by
  intro D
  induction D with
  | nil => intro _; simp
  | cons a t ih =>
    intro hnd
    rw [List.nodup_cons] at hnd
    have iht := ih hnd.2
    by_cases h2 : a = did
    · subst h2
      have ht0 : (((t.filter fun x => decide ((x, c2, d2) ∈ σ)).map
          fun x => Assignment.mk d2 c2 x).filter
            fun b => decide (b.doctor_id = a) && decide (b.date = d)).length = 0 := by
        rw [iht]
        simp [hnd.1]
      by_cases h1 : (a, c2, d2) ∈ σ
      · by_cases h3 : d2 = d
        · subst h3
          simp [List.filter_cons, h1, ht0]
        · simp [List.filter_cons, h1, h3, ht0]
      · simp [List.filter_cons, h1, ht0, iht, hnd.1]
    · have hda : ¬did = a := fun hh => h2 hh.symm
      by_cases h1 : (a, c2, d2) ∈ σ
      · simp [List.filter_cons, h1, h2, iht, hda]
      · simp [List.filter_cons, h1, iht, hda]

/-- C5: in every returned schedule (with duplicate-free worker
identities) every worker holds at most one assignment per date. -/
theorem C5_at_most_one_per_day (inp : SchedInput) (f : Solver)
    (hf : SolverSound f) (hN : (docIds inp).Nodup) (r : SchedResult)
    (h : solve_schedule inp f = Except.ok (some r)) :
    ∀ did d, (workerDayAssignments r.assignments did d).length ≤ 1 := by
  obtain ⟨σ, hσ, rfl⟩ := solve_ok_some h
  obtain ⟨-, hone, -, -, -⟩ := hf _ _ _ _ hσ
  intro did d
  rw [extractResult_assignments]
  unfold workerDayAssignments extractAssignments
  rw [length_filter_flatten]
  have hmap : ∀ s ∈ buildSlots inp.clinics inp.saturdays inp.date_overrides,
      ((((docIds inp).filter fun x => decide ((x, s.1.1, s.1.2) ∈ σ)).map
          fun x => Assignment.mk s.1.2 s.1.1 x).filter
            fun a => decide (a.doctor_id = did) && decide (a.date = d)).length
        = if did ∈ docIds inp ∧ (did, s.1.1, s.1.2) ∈ σ ∧ s.1.2 = d then 1 else 0 :=
    fun s _ => block_count did d s.1.1 s.1.2 σ (docIds inp) hN
  rw [List.map_congr_left hmap]
  by_cases hdid : did ∈ docIds inp
  · have hcong : ∀ s ∈ buildSlots inp.clinics inp.saturdays inp.date_overrides,
        (if did ∈ docIds inp ∧ (did, s.1.1, s.1.2) ∈ σ ∧ s.1.2 = d then 1 else 0)
          = (if s.1.2 = d then xval σ did s.1.1 s.1.2 else 0) := by
      intro s _
      by_cases h1 : (did, s.1.1, s.1.2) ∈ σ <;> by_cases h3 : s.1.2 = d <;>
        simp [xval, hdid, h1, h3]
    rw [List.map_congr_left hcong]
    rw [sum_ite_filter (buildSlots inp.clinics inp.saturdays inp.date_overrides)
      (fun s => s.1.2 = d) (fun s => xval σ did s.1.1 s.1.2)]
    by_cases hd : d ∈ (buildSlots inp.clinics inp.saturdays inp.date_overrides).map
        fun s => s.1.2
    · exact hone did hdid d hd
    · have hnil : (buildSlots inp.clinics inp.saturdays inp.date_overrides).filter
          (fun s => decide (s.1.2 = d)) = [] := by
        rw [List.filter_eq_nil_iff]
        intro s hs
        simp only [decide_eq_true_eq]
        intro hds
        exact hd (hds ▸ List.mem_map_of_mem (fun s => s.1.2) hs)
      rw [hnil]
      simp
  · have hall : ∀ x ∈ (buildSlots inp.clinics inp.saturdays inp.date_overrides).map
        (fun s => if did ∈ docIds inp ∧ (did, s.1.1, s.1.2) ∈ σ ∧ s.1.2 = d
          then 1 else 0), x = 0 := by
      intro x hx
      rw [List.mem_map] at hx
      obtain ⟨s, -, rfl⟩ := hx
      simp [hdid]
    rw [List.sum_eq_zero hall]
    omega

/-- C5 witness: the demo worker holds at most one record on the demo
date. -/
theorem C5_witness : (workerDayAssignments demoResult.assignments 1 0).length ≤ 1 :=
  C5_at_most_one_per_day demoInp naiveSolver naiveSolver_sound (by decide)
    demoResult rfl 1 0

/-- C3 (amended): the hard-inclusion constraint is enforced only over
existing slots.  For a (worker, location) pair whose recorded affinity
weight is the MUST constant, every returned schedule assigns that worker
to that location at least once provided at least one slot for the
location was generated; when the location has no slot the source skips
the constraint (the guard at line 172), so the model is not made
infeasible — the counterexample below exhibits a MUST pair without slots
on which solve_schedule still returns a result. -/
theorem C3_must_enforced_only_with_slots (inp : SchedInput) (f : Solver)
    (hf : SolverSound f) (r : SchedResult)
    (h : solve_schedule inp f = Except.ok (some r)) (did cid : Nat)
    (hdid : did ∈ docIds inp)
    (hw : priorityW inp.affinities did cid = some PRIORITY_MUST)
    (hex : ((buildSlots inp.clinics inp.saturdays inp.date_overrides).filter
      fun s => decide (s.1.1 = cid)) ≠ []) :
    (r.assignments.filter fun a =>
      decide (a.doctor_id = did) && decide (a.clinic_id = cid)) ≠ [] := by
  obtain ⟨σ, hσ, rfl⟩ := solve_ok_some h
  obtain ⟨-, -, -, -, hmust⟩ := hf _ _ _ _ hσ
  obtain ⟨a', ha', hdid', hcid', -⟩ := priorityW_mem hw
  have hsum := hmust did hdid a' ha' hdid' (by rw [hcid']; exact hw)
    (by rw [hcid']; exact hex)
  have hex2 : ∃ s ∈ (buildSlots inp.clinics inp.saturdays
      inp.date_overrides).filter (fun s => decide (s.1.1 = a'.clinic_id)),
      (did, a'.clinic_id, s.1.2) ∈ σ := by
    by_contra hall
    push_neg at hall
    have hzero : (((buildSlots inp.clinics inp.saturdays
        inp.date_overrides).filter fun s => decide (s.1.1 = a'.clinic_id)).map
          fun s => xval σ did a'.clinic_id s.1.2).sum = 0 := by
      apply List.sum_eq_zero
      intro x hx
      rw [List.mem_map] at hx
      obtain ⟨s, hsmem, rfl⟩ := hx
      unfold xval
      rw [if_neg (hall s hsmem)]
    rw [hzero] at hsum
    omega
  obtain ⟨s, hsf, hmem⟩ := hex2
  rw [List.mem_filter] at hsf
  have hscid : s.1.1 = a'.clinic_id := by simpa using hsf.2
  apply List.ne_nil_of_mem (a := Assignment.mk s.1.2 s.1.1 did)
  rw [List.mem_filter]
  constructor
  · rw [extractResult_assignments]
    exact mem_extractAssignments.2 ⟨s, hsf.1, rfl, rfl, hdid,
      by rw [hscid]; exact hmem⟩
  · simp [hscid, hcid']

/-- C3 counterexample: a run holding a MUST affinity toward location 2
while no slot for location 2 is generated; the model is nevertheless
satisfiable and solve_schedule returns a usable result instead of the
None the claim demands. -/
theorem C3_counterexample :
    priorityW mustNoSlotInp.affinities 1 2 = some PRIORITY_MUST ∧
      ((buildSlots mustNoSlotInp.clinics mustNoSlotInp.saturdays
        mustNoSlotInp.date_overrides).filter fun s => decide (s.1.1 = 2)) = [] ∧
      returnsSome (solve_schedule mustNoSlotInp naiveSolver) = true :=
  ⟨rfl, by decide, by decide⟩

/-- The extraction of the MUST-with-slot run under the reference
solver. -/
def mustSlotResult : SchedResult :=
  extractResult mustSlotInp (buildSlots mustSlotInp.clinics mustSlotInp.saturdays
    mustSlotInp.date_overrides) [(1, 1, 0)]

/-- C3 witness: with a slot present, the MUST pair (worker 1, location 1)
receives an assignment. -/
theorem C3_witness :
    (mustSlotResult.assignments.filter fun a =>
      decide (a.doctor_id = 1) && decide (a.clinic_id = 1)) ≠ [] :=
  C3_must_enforced_only_with_slots mustSlotInp naiveSolver naiveSolver_sound
    mustSlotResult rfl 1 1 (by decide) rfl (by decide)
